import Mathlib

/-!
# Verification of the Interactive Multivariable Functions Explorer

A shallow embedding of `src/app.py` (a Streamlit script built on sympy,
numpy and plotly) together with proofs about the claims of its
specification.  The embedding covers:

* the sympy-like symbolic expression trees the app manipulates, with the
  automatic evaluation sympy performs when expressions are constructed
  (constant folding, dropping of zero summands and unit factors,
  zero-absorption in products, `x**1 = x`, `x**0 = 1`, placing the numeric
  coefficient first as sympy's canonical argument order does, collecting
  like terms in sums — `x + x = 2*x`, `foo(x) - foo(x) = 0` — and
  same-base powers with numeric exponents in products — `x*x = x**2`,
  `foo(x)/foo(x) = 1`);
* `sp.sympify(func_input, locals=allowed_funcs)` (app.py line 45) as a
  tokenizer plus recursive-descent parser for the arithmetic fragment the
  app accepts.  As in sympy, an identifier outside the allowed vocabulary
  does not make parsing fail: a bare identifier becomes a `Symbol` and an
  applied one an undefined-function application.  (Named sympy constants
  such as `pi`, multi-argument undefined functions, and leading-dot float
  literals are outside the modelled fragment.)
* `f.subs(z, z0)` (line 89) and `sp.diff` (lines 153-154, 175-176,
  193-194), both rebuilding with the auto-evaluating constructors, as
  sympy does;
* `sp.lambdify((x, y), f_eval, "numpy")` followed by `Z = f_lamb(X, Y)`
  (lines 95-96) over the fixed grid `np.linspace(-5, 5, 60)` /
  `np.meshgrid` (lines 81-82).  Arithmetic on grid values is modelled by
  exact rational arithmetic; float values that exact rational arithmetic
  does not determine (values of sin, cos, tan, exp, log at generic
  points) are abstracted by a designated `unspec` value, and the IEEE
  non-finite outcomes (Inf, -Inf, NaN) are explicit constructors.
  A NameError raised by the generated code when the expression mentions a
  name other than `x`/`y` is modelled as the evaluation-stage error; as
  with numpy broadcasting, the result is a 60 by 60 array exactly when the
  expression mentions `x` or `y`, and a plain scalar otherwise;
* `surface_explanation` (lines 122-131) with `np.nanmin`/`np.nanmax`
  semantics: NaN entries are ignored, infinite entries participate;
* the top-to-bottom control flow of the script (`st.stop()` at lines 63
  and 102, the four topic branches) as a function from the collected
  inputs to the list of output effects the script emits.
-/

namespace Explorer

/-- The allowed unary functions of `allowed_funcs` (app.py lines 32-39)
that sympy keeps as function applications.  `sqrt` is absent because
`sp.sqrt(a)` constructs `Pow(a, 1/2)`, not a function application. -/
inductive Fn
  | sin
  | cos
  | tan
  | exp
  | log
deriving DecidableEq

/-- Sympy-like expression trees: numeric literals, symbols, the n-ary
sympy `Add`/`Mul`/`Pow` restricted to the binary fragment the app
produces, applications of the allowed functions, applications of
undefined functions (sympy `Function("name")(arg)`), and the
derivative-of-an-undefined-function marker that `sp.diff` produces for
them (`uder name k arg` standing for the k+1-st derivative of the
undefined function applied at `arg`). -/
inductive SymExpr
  | num (q : ℚ)
  | sym (s : String)
  | add (a b : SymExpr)
  | mul (a b : SymExpr)
  | pow (a b : SymExpr)
  | fn (f : Fn) (a : SymExpr)
  | ufn (name : String) (arg : SymExpr)
  | uder (name : String) (k : ℕ) (arg : SymExpr)
deriving DecidableEq

/-- Decidable equality of parser and evaluator results, for concrete
computations in proofs. -/
instance {ε α : Type} [DecidableEq ε] [DecidableEq α] : DecidableEq (Except ε α) :=
  fun a b =>
    match a, b with
    | .ok u, .ok v => if h : u = v then .isTrue (by rw [h]) else .isFalse (by simp [h])
    | .error u, .error v => if h : u = v then .isTrue (by rw [h]) else .isFalse (by simp [h])
    | .ok _, .error _ => .isFalse (by simp)
    | .error _, .ok _ => .isFalse (by simp)

/-- The numeric value of a literal, if the expression is one. -/
def numVal? : SymExpr → Option ℚ
  | .num q => some q
  | _ => none

/-! Rational arithmetic via `mkRat`, so that concrete symbolic
computations reduce inside the kernel (the kernel does not unfold
`Rat.add`, `Rat.mul` or `Rat.inv`, but it does reduce `mkRat` and
`Rat.divInt`); each operation is proved equal to the standard one
below (`qadd_eq_add` and companions). -/

/-- Rational addition via `mkRat`. -/
def qadd (a b : ℚ) : ℚ :=
  mkRat (a.num * b.den + b.num * a.den) (a.den * b.den)

/-- Rational multiplication via `mkRat`. -/
def qmul (a b : ℚ) : ℚ :=
  mkRat (a.num * b.num) (a.den * b.den)

/-- Rational negation via `mkRat`. -/
def qneg (a : ℚ) : ℚ :=
  mkRat (-a.num) a.den

/-- Rational subtraction. -/
def qsub (a b : ℚ) : ℚ :=
  qadd a (qneg b)

/-- Rational inverse via `Rat.divInt`. -/
def qinv (a : ℚ) : ℚ :=
  Rat.divInt a.den a.num

/-- Rational division. -/
def qdiv (a b : ℚ) : ℚ :=
  qmul a (qinv b)

/-- Natural power on rationals by explicit recursion. -/
def qpowNat (p : ℚ) : ℕ → ℚ
  | 0 => 1
  | n + 1 => qmul (qpowNat p n) p

/-- Integer power on rationals (inverse of the natural power for
negative exponents). -/
def qzpow (p : ℚ) : ℤ → ℚ
  | .ofNat n => qpowNat p n
  | .negSucc n => qinv (qpowNat p (n + 1))

/-- Sympy's decomposition of a summand into its numeric coefficient and
its term part (`e.as_coeff_Mul()`): `q * t` gives `(q, t)`, anything
else counts with coefficient 1.  The number sits first in the modelled
canonical form, so the first pattern covers every coefficient-carrying
product. -/
def asCoeffTerm (e : SymExpr) : ℚ × SymExpr :=
  match e with
  | .mul (.num q) t => (q, t)
  | t => (1, t)

/-- Sympy's decomposition of a factor into base and exponent
(`e.as_base_exp()`): a power gives its parts, anything else has
exponent 1. -/
def asBasePow (e : SymExpr) : SymExpr × SymExpr :=
  match e with
  | .pow b e => (b, e)
  | b => (b, .num 1)

/-- Sympy's auto-evaluating `Add`: numbers fold, zero disappears, a
numeric summand is placed first (sympy's canonical argument order), and
two summands sharing their term part collect into one summand with the
coefficients added (`x + x = 2*x`, `foo(x) - foo(x) = 0`), as sympy's
`Add.flatten` does.  Collection across deeper nested sums (sympy
re-flattens n-ary) is outside the modelled binary fragment. -/
def sAdd (a b : SymExpr) : SymExpr :=
  match numVal? a, numVal? b with
  | some p, some q => .num (qadd p q)
  | some p, none => if p = 0 then b else .add a b
  | none, some q => if q = 0 then a else .add b a
  | none, none =>
      let (p, t) := asCoeffTerm a
      let (q, u) := asCoeffTerm b
      if t = u then
        let c := qadd p q
        if c = 0 then .num 0 else if c = 1 then t else .mul (.num c) t
      else .add a b

/-- Sympy's auto-evaluating `Mul`: numbers fold, zero absorbs, one
disappears, a numeric factor is placed first, and two factors sharing
their base with numeric exponents collect into one power with the
exponents added (`x * x = x**2`, `foo(x) / foo(x) = 1`), as sympy's
`Mul.flatten` does.  Collection with symbolic exponents or across
deeper nested products is outside the modelled binary fragment. -/
def sMul (a b : SymExpr) : SymExpr :=
  match numVal? a, numVal? b with
  | some p, some q => .num (qmul p q)
  | some p, none => if p = 0 then .num 0 else if p = 1 then b else .mul a b
  | none, some q => if q = 0 then .num 0 else if q = 1 then a else .mul b a
  | none, none =>
      let (t, e1) := asBasePow a
      let (u, e2) := asBasePow b
      match numVal? e1, numVal? e2 with
      | some p, some q =>
          if t = u then
            let c := qadd p q
            if c = 0 then .num 1 else if c = 1 then t else .pow t (.num c)
          else .mul a b
      | _, _ => .mul a b

/-- Sympy's auto-evaluating `Pow`: integer powers of numbers fold
(`0 ** negative`, sympy's `zoo`, is left unevaluated), `a ** 1 = a`,
`a ** 0 = 1`. -/
def sPow (a b : SymExpr) : SymExpr :=
  match numVal? a, numVal? b with
  | some p, some q =>
      if q.den = 1 && !(p = 0 && q.num < 0) then .num (qzpow p q.num) else .pow a b
  | _, some q => if q = 0 then .num 1 else if q = 1 then a else .pow a b
  | _, none => .pow a b

/-- Sympy's auto-evaluation of the allowed functions at the special
rational points it recognises in this fragment
(`sin 0 = 0`, `cos 0 = 1`, `tan 0 = 0`, `exp 0 = 1`, `log 1 = 0`). -/
def sFn (f : Fn) (a : SymExpr) : SymExpr :=
  match f, numVal? a with
  | .sin, some q => if q = 0 then .num 0 else .fn .sin a
  | .cos, some q => if q = 0 then .num 1 else .fn .cos a
  | .tan, some q => if q = 0 then .num 0 else .fn .tan a
  | .exp, some q => if q = 0 then .num 1 else .fn .exp a
  | .log, some q => if q = 1 then .num 0 else .fn .log a
  | _, _ => .fn f a

/-- Whether the symbol `s` occurs in the expression (sympy
`s in e.free_symbols`). -/
def containsSym (s : String) : SymExpr → Bool
  | .num _ => false
  | .sym t => t == s
  | .add a b => containsSym s a || containsSym s b
  | .mul a b => containsSym s a || containsSym s b
  | .pow a b => containsSym s a || containsSym s b
  | .fn _ a => containsSym s a
  | .ufn _ a => containsSym s a
  | .uder _ _ a => containsSym s a

/-- Whether the expression mentions a name other than the lambdify
parameters `x` and `y` — exactly the expressions whose generated code
raises a `NameError` when `f_lamb(X, Y)` runs (app.py line 96).
Undefined functions and their derivative markers always do. -/
def hasUnknown : SymExpr → Bool
  | .num _ => false
  | .sym t => !(t == "x" || t == "y")
  | .add a b => hasUnknown a || hasUnknown b
  | .mul a b => hasUnknown a || hasUnknown b
  | .pow a b => hasUnknown a || hasUnknown b
  | .fn _ a => hasUnknown a
  | .ufn _ _ => true
  | .uder _ _ _ => true

/-- Whether the expression mentions `x` or `y`: with numpy lambdify this
is exactly when the evaluated result is an array (broadcast over the
grid) rather than a plain scalar. -/
def containsXY (e : SymExpr) : Bool :=
  containsSym "x" e || containsSym "y" e

/-- Sympy's `e.subs(v, c)` for a numeric value `c`: replace every
occurrence of the symbol and rebuild bottom-up with the auto-evaluating
constructors, exactly as sympy does. -/
def subsSym (v : String) (c : ℚ) : SymExpr → SymExpr
  | .num q => .num q
  | .sym t => if t == v then .num c else .sym t
  | .add a b => sAdd (subsSym v c a) (subsSym v c b)
  | .mul a b => sMul (subsSym v c a) (subsSym v c b)
  | .pow a b => sPow (subsSym v c a) (subsSym v c b)
  | .fn f a => sFn f (subsSym v c a)
  | .ufn n a => .ufn n (subsSym v c a)
  | .uder n k a => .uder n k (subsSym v c a)

/-- The derivative of the allowed function `f` at argument `a`
(the outer factor of sympy's chain rule):
`sin' = cos`, `cos' = -sin`, `tan' = tan^2 + 1`, `exp' = exp`,
`log' a = a^(-1)`. -/
def dFn (f : Fn) (a : SymExpr) : SymExpr :=
  match f with
  | .sin => sFn .cos a
  | .cos => sMul (.num (-1)) (sFn .sin a)
  | .tan => sAdd (sPow (sFn .tan a) (.num 2)) (.num 1)
  | .exp => sFn .exp a
  | .log => sPow a (.num (-1))

/-- Sympy's `sp.diff(e, v)` (app.py lines 153-154): the standard symbolic
first partial derivative, rebuilding with the auto-evaluating
constructors.  For a power with a non-numeric exponent sympy's general
formula `a^b * (b' * log a + b * a' / a)` is used; the derivative of an
undefined function is kept as a marker node times the chain factor. -/
def diff (v : String) : SymExpr → SymExpr
  | .num _ => .num 0
  | .sym t => if t == v then .num 1 else .num 0
  | .add a b => sAdd (diff v a) (diff v b)
  | .mul a b => sAdd (sMul (diff v a) b) (sMul a (diff v b))
  | .pow a b =>
      match numVal? b with
      | some n => sMul (sMul (.num n) (sPow a (.num (qsub n 1)))) (diff v a)
      | none =>
          sMul (sPow a b)
            (sAdd (sMul (diff v b) (sFn .log a))
              (sMul b (sMul (diff v a) (sPow a (.num (-1))))))
  | .fn f a => sMul (dFn f a) (diff v a)
  | .ufn n a => sMul (.uder n 0 a) (diff v a)
  | .uder n k a => sMul (.uder n (k + 1) a) (diff v a)

/-! ## The parser

`sp.sympify(func_input, locals=allowed_funcs)` (app.py line 45) parses a
Python arithmetic expression.  The modelled grammar is the fragment the
app accepts: integer and decimal literals, identifiers, function calls
with one argument, `+ - * / **`, unary minus and parentheses, with
Python's precedences (`**` binds more tightly than unary minus on its
left, and its right operand may itself be signed).  `a - b` is read as
`a + (-1)*b`, `a / b` as `a * b**(-1)` and unary minus as `(-1) * a`,
which is how sympy represents them.  An identifier applied to an
argument resolves through `allowed_funcs`; any other identifier becomes
a `Symbol` when bare and an undefined-function application when called —
sympify raises nothing for unknown names.  Malformed syntax yields an
error, modelling `SympifyError`. -/

/-- Tokens of the modelled input language. -/
inductive Tok
  | num (q : ℚ)
  | ident (s : String)
  | plus
  | minus
  | star
  | dstar
  | slash
  | lparen
  | rparen
  | comma
deriving DecidableEq

/-- Value of a list of decimal digit characters. -/
def digitsToNat (ds : List Char) : ℕ :=
  ds.foldl (fun a c => 10 * a + (c.toNat - 48)) 0

/-- Characters that may start an identifier. -/
def isIdentStart (c : Char) : Bool :=
  c.isAlpha || c == '_'

/-- Characters that may continue an identifier. -/
def isIdentCh (c : Char) : Bool :=
  c.isAlphanum || c == '_'

/-- Fuel-indexed tokenizer; every step consumes at least one character,
so `length + 1` fuel always suffices. -/
def tokenizeF : ℕ → List Char → Except String (List Tok)
  | 0, _ => .error "tokenizer ran out of fuel"
  | _ + 1, [] => .ok []
  | n + 1, c :: cs =>
    if c.isWhitespace then tokenizeF n cs
    else if c.isDigit then
      let ds := (c :: cs).takeWhile Char.isDigit
      let rest := (c :: cs).dropWhile Char.isDigit
      match rest with
      | '.' :: rest2 =>
        let fs := rest2.takeWhile Char.isDigit
        let rest3 := rest2.dropWhile Char.isDigit
        (tokenizeF n rest3).map
          (fun ts =>
            .num (qadd (digitsToNat ds : ℚ) (qdiv (digitsToNat fs : ℚ) (qpowNat 10 fs.length))) :: ts)
      | _ => (tokenizeF n rest).map (fun ts => .num (digitsToNat ds : ℚ) :: ts)
    else if isIdentStart c then
      let is := (c :: cs).takeWhile isIdentCh
      let rest := (c :: cs).dropWhile isIdentCh
      (tokenizeF n rest).map (fun ts => .ident (String.mk is) :: ts)
    else if c == '+' then (tokenizeF n cs).map (fun ts => .plus :: ts)
    else if c == '-' then (tokenizeF n cs).map (fun ts => .minus :: ts)
    else if c == '*' then
      match cs with
      | '*' :: cs2 => (tokenizeF n cs2).map (fun ts => .dstar :: ts)
      | _ => (tokenizeF n cs).map (fun ts => .star :: ts)
    else if c == '/' then (tokenizeF n cs).map (fun ts => .slash :: ts)
    else if c == '(' then (tokenizeF n cs).map (fun ts => .lparen :: ts)
    else if c == ')' then (tokenizeF n cs).map (fun ts => .rparen :: ts)
    else if c == ',' then (tokenizeF n cs).map (fun ts => .comma :: ts)
    else .error "unexpected character"

/-- Tokenize an input string. -/
def tokenize (s : String) : Except String (List Tok) :=
  tokenizeF (s.length + 1) s.toList

/-- Resolution of a called identifier through `allowed_funcs`
(app.py lines 32-39): the five function names build function
applications, `sqrt a` builds `Pow(a, 1/2)` as `sp.sqrt` does, and any
other name builds an undefined-function application, as sympify's
automatic symbol creation does. -/
def applyFn (name : String) (a : SymExpr) : SymExpr :=
  match name with
  | "sin" => sFn .sin a
  | "cos" => sFn .cos a
  | "tan" => sFn .tan a
  | "exp" => sFn .exp a
  | "log" => sFn .log a
  | "sqrt" => sPow a (.num (1 / 2))
  | _ => .ufn name a

/-- States of the recursive-descent parser: the grammar level being read,
with the left-assoc accumulation states carrying the expression read so
far. -/
inductive PSt
  | expr
  | exprRest (a : SymExpr)
  | term
  | termRest (a : SymExpr)
  | factor
  | power
  | atom

/-- Fuel-indexed recursive-descent parser over the token list, returning
the parsed expression and the unconsumed tokens. -/
def parseGo : ℕ → PSt → List Tok → Except String (SymExpr × List Tok)
  | 0, _, _ => .error "expression too deeply nested"
  | n + 1, st, ts =>
    match st, ts with
    | .expr, _ => do
        let (a, ts1) ← parseGo n .term ts
        parseGo n (.exprRest a) ts1
    | .exprRest a, .plus :: ts1 => do
        let (b, ts2) ← parseGo n .term ts1
        parseGo n (.exprRest (sAdd a b)) ts2
    | .exprRest a, .minus :: ts1 => do
        let (b, ts2) ← parseGo n .term ts1
        parseGo n (.exprRest (sAdd a (sMul (.num (-1)) b))) ts2
    | .exprRest a, _ => .ok (a, ts)
    | .term, _ => do
        let (a, ts1) ← parseGo n .factor ts
        parseGo n (.termRest a) ts1
    | .termRest a, .star :: ts1 => do
        let (b, ts2) ← parseGo n .factor ts1
        parseGo n (.termRest (sMul a b)) ts2
    | .termRest a, .slash :: ts1 => do
        let (b, ts2) ← parseGo n .factor ts1
        parseGo n (.termRest (sMul a (sPow b (.num (-1))))) ts2
    | .termRest a, _ => .ok (a, ts)
    | .factor, .minus :: ts1 => do
        let (a, ts2) ← parseGo n .factor ts1
        .ok (sMul (.num (-1)) a, ts2)
    | .factor, _ => parseGo n .power ts
    | .power, _ => do
        let (a, ts1) ← parseGo n .atom ts
        match ts1 with
        | .dstar :: ts2 => do
            let (b, ts3) ← parseGo n .factor ts2
            .ok (sPow a b, ts3)
        | _ => .ok (a, ts1)
    | .atom, .num q :: ts1 => .ok (.num q, ts1)
    | .atom, .ident name :: .lparen :: ts1 => do
        let (a, ts2) ← parseGo n .expr ts1
        match ts2 with
        | .rparen :: ts3 => .ok (applyFn name a, ts3)
        | _ => .error "expected a closing parenthesis"
    | .atom, .ident name :: ts1 => .ok (.sym name, ts1)
    | .atom, .lparen :: ts1 => do
        let (a, ts2) ← parseGo n .expr ts1
        match ts2 with
        | .rparen :: ts3 => .ok (a, ts3)
        | _ => .error "expected a closing parenthesis"
    | .atom, _ => .error "expected a number, an identifier, or a parenthesis"

/-- The parser: `sp.sympify(func_input, locals=allowed_funcs)` of
app.py line 45.  A successful parse must consume every token, so
`sin x`-style juxtaposition is rejected, as it is by sympify. -/
def parse (s : String) : Except String SymExpr := do
  let ts ← tokenize s
  let (e, rest) ← parseGo (4 * ts.length + 8) .expr ts
  match rest with
  | [] => .ok e
  | _ => .error "unexpected trailing input"

/-! ## The numeric evaluator

`f_lamb = sp.lambdify((x, y), f_eval, "numpy"); Z = f_lamb(X, Y)`
(app.py lines 95-96).  Grid coordinates are the exact rationals
`-5 + 10*k/59` of `np.linspace(-5, 5, 60)`; arithmetic on them follows
IEEE semantics with exact rational values, explicit `inf`, `-inf` and
`nan` outcomes, and a designated `unspec` value abstracting every float
that exact rational arithmetic does not determine (transcendental
function values at generic points, and arithmetic on non-finite or
unspecified inputs). -/

/-- A float value of the evaluated height field: an exactly known
rational, positive or negative infinity, NaN, or a value the exact
model leaves unspecified. -/
inductive FVal
  | fin (q : ℚ)
  | pinf
  | ninf
  | nan
  | unspec
deriving DecidableEq

/-- IEEE addition, exact on finite rationals and abstracted otherwise. -/
def fadd : FVal → FVal → FVal
  | .fin p, .fin q => .fin (p + q)
  | _, _ => .unspec

/-- IEEE multiplication, exact on finite rationals and abstracted
otherwise. -/
def fmul : FVal → FVal → FVal
  | .fin p, .fin q => .fin (p * q)
  | _, _ => .unspec

/-- Numpy power on finite rationals: integer exponents are exact, with
`0.0 ** negative = inf`; a fractional exponent of a negative base is
NaN, of zero is `0` or `inf` by the exponent's sign, and of a positive
base is an unspecified finite float.  Non-finite inputs are
abstracted. -/
def fpow : FVal → FVal → FVal
  | .fin p, .fin q =>
      if q.den = 1 then
        if p = 0 && q.num < 0 then .pinf else .fin (qzpow p q.num)
      else if p < 0 then .nan
      else if p = 0 then (if 0 < q then .fin 0 else .pinf)
      else .unspec
  | _, _ => .unspec

/-- Numpy evaluation of the allowed functions: `log` of a negative float
is NaN and `log 0 = -inf`; every other finite case is a float the exact
model leaves unspecified (sin, cos, tan are always finite there, exp may
overflow to `inf`). -/
def ffn : Fn → FVal → FVal
  | .log, .fin q => if q < 0 then .nan else if q = 0 then .ninf else .unspec
  | _, .fin _ => .unspec
  | _, _ => .unspec

/-- Element-wise evaluation of the generated numpy code at the grid
point `(xv, yv)`.  Symbols other than `x`/`y`, undefined functions and
their derivative markers never reach this function along the modelled
pipeline (they raise a NameError first, see `lambdifyEval`); totality
gives them the unspecified value. -/
def evalNum (xv yv : ℚ) : SymExpr → FVal
  | .num q => .fin q
  | .sym t => if t == "x" then .fin xv else if t == "y" then .fin yv else .unspec
  | .add a b => fadd (evalNum xv yv a) (evalNum xv yv b)
  | .mul a b => fmul (evalNum xv yv a) (evalNum xv yv b)
  | .pow a b => fpow (evalNum xv yv a) (evalNum xv yv b)
  | .fn f a => ffn f (evalNum xv yv a)
  | .ufn _ _ => .unspec
  | .uder _ _ _ => .unspec

/-- The k-th sample of `np.linspace(-5, 5, 60)` (app.py line 81), as an
exact rational: `-5 + 10*k/59`. -/
def valAt (k : ℕ) : ℚ :=
  -5 + 10 * k / 59

/-- The height field over the meshgrid (app.py line 82): entry `(i, j)`
is the expression at `x = valAt j`, `y = valAt i`. -/
def mkGrid (e : SymExpr) : List (List FVal) :=
  (List.range 60).map fun i => (List.range 60).map fun j => evalNum (valAt j) (valAt i) e

/-- The value `Z` produced by `f_lamb(X, Y)`: a 2D array when the
expression mentions `x` or `y` (numpy broadcasting), and a plain scalar
otherwise — lambdify of a constant expression returns a scalar, not an
array. -/
inductive HeightField
  | scalar (v : FVal)
  | grid (g : List (List FVal))
deriving DecidableEq

/-- The evaluation stage, lines 94-96: converting the sliced expression
to a numeric function and applying it to the grid.  A name other than
`x`/`y` in the expression makes the generated code raise a NameError,
caught by the bare `except` of line 97. -/
def lambdifyEval (e : SymExpr) : Except String HeightField :=
  if hasUnknown e then .error "NameError"
  else if containsXY e then .ok (.grid (mkGrid e))
  else .ok (.scalar (evalNum 0 0 e))

/-! ## The surface explanation heuristic (app.py lines 122-131) -/

/-- Whether the value is NaN. -/
def isNan : FVal → Bool
  | .nan => true
  | _ => false

/-- Whether the value is the unspecified abstraction. -/
def isUnspec : FVal → Bool
  | .unspec => true
  | _ => false

/-- Whether the value is a finite (exactly known) float. -/
def isFinite : FVal → Bool
  | .fin _ => true
  | _ => false

/-- The extended-real order on determinate values (`-inf` below every
finite value, `inf` above); NaN and the unspecified value are placed at
the bottom so the function is total, but `nanmin`/`nanmax` never compare
NaN and the classification theorems exclude unspecified values. -/
def fle : FVal → FVal → Bool
  | .nan, _ => true
  | _, .nan => false
  | .unspec, _ => true
  | _, .unspec => false
  | .ninf, _ => true
  | _, .ninf => false
  | .fin p, .fin q => p ≤ q
  | .fin _, .pinf => true
  | .pinf, .fin _ => false
  | .pinf, .pinf => true

/-- Binary minimum for the fold of `np.nanmin`. -/
def fmin (a b : FVal) : FVal :=
  if fle a b then a else b

/-- Binary maximum for the fold of `np.nanmax`. -/
def fmax (a b : FVal) : FVal :=
  if fle a b then b else a

/-- The non-NaN entries of a list, the values `np.nanmin`/`np.nanmax`
actually compare. -/
def nonNan (l : List FVal) : List FVal :=
  l.filter fun v => !isNan v

/-- `np.nanmin`: the minimum over the non-NaN entries; NaN (with a
runtime warning) when there are none.  Infinite entries participate. -/
def nanmin (l : List FVal) : FVal :=
  match nonNan l with
  | [] => .nan
  | h :: t => t.foldl fmin h

/-- `np.nanmax`, dually. -/
def nanmax (l : List FVal) : FVal :=
  match nonNan l with
  | [] => .nan
  | h :: t => t.foldl fmax h

/-- The comparison `v >= 0` on floats: false for NaN. -/
def ge0 : FVal → Bool
  | .fin q => 0 ≤ q
  | .pinf => true
  | _ => false

/-- The comparison `v <= 0` on floats: false for NaN. -/
def le0 : FVal → Bool
  | .fin q => q ≤ 0
  | .ninf => true
  | _ => false

/-- The values a `Z` holds: the one scalar, or the flattened grid. -/
def fieldVals : HeightField → List FVal
  | .scalar v => [v]
  | .grid g => g.flatten

/-- Message of the first branch of `surface_explanation`. -/
def minMsg : String :=
  "The surface lies above the xy-plane, suggesting a minimum point."

/-- Message of the second branch of `surface_explanation`. -/
def maxMsg : String :=
  "The surface lies below the xy-plane, suggesting a maximum point."

/-- Message of the final branch of `surface_explanation`. -/
def saddleMsg : String :=
  "The surface has both positive and negative values. This indicates varying curvature or a possible saddle point."

/-- `surface_explanation(Z)` (app.py lines 122-131): `np.nanmin(Z) >= 0`
classifies as the minimum statement, otherwise `np.nanmax(Z) <= 0` as
the maximum statement, otherwise the saddle statement. -/
def surface_explanation (Z : HeightField) : String :=
  if ge0 (nanmin (fieldVals Z)) then minMsg
  else if le0 (nanmax (fieldVals Z)) then maxMsg
  else saddleMsg

/-! ## The script's control flow -/

/-- The variable-count selector (app.py lines 17-20). -/
inductive Mode
  | two
  | three
deriving DecidableEq

/-- The topic selector (app.py lines 68-76). -/
inductive Topic
  | meaning
  | derivs
  | gradient
  | differentials
deriving DecidableEq

/-- The inputs a single interaction collects.  The auxiliary numeric
inputs x0, y0, dx, dy are collected by the script but never influence
any output, so they are not carried. -/
structure Inputs where
  varType : Mode
  funcInput : String
  topic : Topic
  z0 : ℚ
deriving DecidableEq

/-- The output effects the script can emit, in order: error boxes
(`st.error`), the markdown help block, halting (`st.stop`), subheaders,
body text, the plotly chart (`st.plotly_chart`), info boxes (`st.info`)
and latex blocks — symbolic ones carrying an expression and the fixed
differential formula carrying its text. -/
inductive Effect
  | errBox (s : String)
  | mdBox (s : String)
  | halt
  | subhead (s : String)
  | body (s : String)
  | chartOut
  | infoBox (s : String)
  | texOut (e : SymExpr)
  | texStr (s : String)
deriving DecidableEq

/-- Message of the parse-failure branch (app.py line 47). -/
def invalidInputMsg : String :=
  "Invalid function input."

/-- The markdown help block of the parse-failure branch
(app.py lines 48-62), abridged to its opening line. -/
def helpMsg : String :=
  "Please check the following syntax rules and examples of valid inputs."

/-- Message of the evaluation-failure branch (app.py lines 98-101). -/
def evalErrMsg : String :=
  "The function cannot be evaluated on the selected domain. This may happen due to division by zero or invalid values."

/-- The sliced expression `f_eval` (app.py lines 87-91): in 3-variable
mode the slice value is substituted for `z`; in 2-variable mode the
parsed expression passes through unchanged. -/
def f_eval (m : Mode) (z0 : ℚ) (f : SymExpr) : SymExpr :=
  match m with
  | .three => subsSym "z" z0 f
  | .two => f

/-- One interaction of the script, top to bottom: parse (halting with
the error explanation on failure), slice, evaluate (halting with the
domain explanation on failure), then the selected topic's outputs.  The
returned list is the sequence of emitted effects. -/
def run (inp : Inputs) : List Effect :=
  match parse inp.funcInput with
  | .error _ => [.errBox invalidInputMsg, .mdBox helpMsg, .halt]
  | .ok f =>
    let fe := f_eval inp.varType inp.z0 f
    match lambdifyEval fe with
    | .error _ => [.errBox evalErrMsg, .halt]
    | .ok Z =>
      match inp.topic with
      | .meaning =>
          [.subhead "Meaning & Visualization",
           .body "The graph represents the surface z = f(x, y).",
           .chartOut,
           .infoBox (surface_explanation Z)]
      | .derivs =>
          [.subhead "Partial Derivatives",
           .texOut (diff "x" fe),
           .texOut (diff "y" fe),
           .body "Partial derivatives describe how the surface changes.",
           .chartOut]
      | .gradient =>
          [.subhead "Gradient & Steepest Ascent",
           .texOut (diff "x" fe),
           .texOut (diff "y" fe),
           .body "The gradient vector points in the direction of steepest ascent.",
           .chartOut]
      | .differentials =>
          [.subhead "Differentials",
           .texStr "df = f_x dx + f_y dy",
           .body "The differential provides a linear approximation.",
           .chartOut]

/-- Whether a trace contains an error box. -/
def isErrEff : Effect → Bool
  | .errBox _ => true
  | _ => false

/-- Whether an effect is the rendered chart. -/
def isChartEff : Effect → Bool
  | .chartOut => true
  | _ => false

/-- Whether an effect is topic output (subheader, body text, info box or
a latex block) as opposed to error reporting or halting. -/
def isTopicEff : Effect → Bool
  | .subhead _ => true
  | .body _ => true
  | .infoBox _ => true
  | .texOut _ => true
  | .texStr _ => true
  | _ => false

/-- Whether a value is determinate (neither NaN nor the unspecified
abstraction). -/
def plainVal : FVal → Bool
  | .nan => false
  | .unspec => false
  | _ => true

/-- Whether every entry of a field avoids the unspecified abstraction —
every real numpy array satisfies this; it is a side condition of the
model only. -/
def noUnspec (l : List FVal) : Bool :=
  l.all fun v => !isUnspec v

/-- The expression sympy builds for the input `1/x`: `Pow(x, -1)`. -/
def oneOverX : SymExpr :=
  .pow (.sym "x") (.num (-1))

/-- Whether a field contains a non-finite (or unspecified) entry. -/
def hasNonFin (g : List (List FVal)) : Bool :=
  g.any fun r => r.any fun v => !isFinite v

/-- Whether a `Z` value is a 2D array whose shape matches the 60 by 60
evaluation grid. -/
def isGridShaped : HeightField → Bool
  | .scalar _ => false
  | .grid g => g.length == 60 && g.all fun r => r.length == 60

/-! ## The `mkRat`-based arithmetic is the standard arithmetic -/

theorem qadd_eq_add (a b : ℚ) : qadd a b = a + b := by
  rw [qadd, Rat.mkRat_eq_div]
  have ha : (a.den : ℚ) ≠ 0 := by exact_mod_cast a.den_nz
  have hb : (b.den : ℚ) ≠ 0 := by exact_mod_cast b.den_nz
  conv_rhs => rw [← Rat.num_div_den a, ← Rat.num_div_den b]
  push_cast
  field_simp

theorem qmul_eq_mul (a b : ℚ) : qmul a b = a * b := by
  rw [qmul, Rat.mkRat_eq_div]
  conv_rhs => rw [← Rat.num_div_den a, ← Rat.num_div_den b]
  push_cast
  rw [div_mul_div_comm]

theorem qneg_eq_neg (a : ℚ) : qneg a = -a := by
  rw [qneg, Rat.mkRat_eq_div]
  push_cast
  rw [neg_div, Rat.num_div_den]

theorem qsub_eq_sub (a b : ℚ) : qsub a b = a - b := by
  rw [qsub, qadd_eq_add, qneg_eq_neg, sub_eq_add_neg]

theorem qinv_eq_inv (a : ℚ) : qinv a = a⁻¹ :=
  (Rat.inv_def a).symm

theorem qdiv_eq_div (a b : ℚ) : qdiv a b = a / b := by
  rw [qdiv, qmul_eq_mul, qinv_eq_inv, div_eq_mul_inv]

theorem qpowNat_eq_pow (p : ℚ) (n : ℕ) : qpowNat p n = p ^ n := by
  induction n with
  | zero => simp [qpowNat]
  | succ n ih => rw [qpowNat, qmul_eq_mul, ih, pow_succ]

theorem qzpow_eq_zpow (p : ℚ) (n : ℤ) : qzpow p n = p ^ n := by
  cases n with
  | ofNat k =>
      rw [qzpow, qpowNat_eq_pow]
      exact (zpow_natCast p k).symm
  | negSucc k =>
      rw [qzpow, qinv_eq_inv, qpowNat_eq_pow]
      exact (zpow_negSucc p k).symm

/-! ## Properties of the auto-evaluating constructors

Rebuilding with the auto-evaluating constructors never introduces a
symbol: each constructor's output mentions only symbols of its
inputs. -/

theorem containsSym_asCoeffTerm (s : String) (a : SymExpr)
    (ha : containsSym s a = false) :
    containsSym s (asCoeffTerm a).2 = false := by
  cases a with
  | num q => simp [asCoeffTerm, containsSym]
  | sym t => simpa [asCoeffTerm, containsSym] using ha
  | add x y => simpa [asCoeffTerm, containsSym] using ha
  | mul x y => cases x <;> simp_all [asCoeffTerm, containsSym]
  | pow x y => simpa [asCoeffTerm, containsSym] using ha
  | fn f x => simpa [asCoeffTerm, containsSym] using ha
  | ufn n x => simpa [asCoeffTerm, containsSym] using ha
  | uder n k x => simpa [asCoeffTerm, containsSym] using ha

theorem containsSym_asBasePow (s : String) (a : SymExpr)
    (ha : containsSym s a = false) :
    containsSym s (asBasePow a).1 = false ∧
    containsSym s (asBasePow a).2 = false := by
  cases a <;> simp_all [asBasePow, containsSym]

theorem containsSym_sAdd {s : String} {a b : SymExpr}
    (ha : containsSym s a = false) (hb : containsSym s b = false) :
    containsSym s (sAdd a b) = false := by
  have hta := containsSym_asCoeffTerm s a ha
  have htb := containsSym_asCoeffTerm s b hb
  unfold sAdd
  rcases hA : asCoeffTerm a with ⟨p1, t⟩
  rcases hB : asCoeffTerm b with ⟨q1, u⟩
  rw [hA] at hta
  rw [hB] at htb
  simp only at hta htb
  cases numVal? a <;> cases numVal? b <;> simp only [] <;>
    first
      | (split_ifs <;> simp_all [containsSym])
      | simp_all [containsSym]

theorem containsSym_sMul {s : String} {a b : SymExpr}
    (ha : containsSym s a = false) (hb : containsSym s b = false) :
    containsSym s (sMul a b) = false := by
  have h1 := containsSym_asBasePow s a ha
  have h2 := containsSym_asBasePow s b hb
  unfold sMul
  rcases hA : asBasePow a with ⟨t, e1⟩
  rcases hB : asBasePow b with ⟨u, e2⟩
  rw [hA] at h1
  rw [hB] at h2
  simp only at h1 h2
  obtain ⟨ht, he1⟩ := h1
  obtain ⟨hu, he2⟩ := h2
  cases numVal? a <;> cases numVal? b <;> simp only [] <;>
    (try cases numVal? e1) <;> (try cases numVal? e2) <;>
    first
      | (split_ifs <;> simp_all [containsSym] <;>
          (try (split_ifs <;> simp_all [containsSym])))
      | simp_all [containsSym]

theorem containsSym_sPow {s : String} {a b : SymExpr}
    (ha : containsSym s a = false) (hb : containsSym s b = false) :
    containsSym s (sPow a b) = false := by
  unfold sPow
  cases numVal? a <;> cases numVal? b <;> simp only [] <;>
    first
      | (split_ifs <;> simp_all [containsSym])
      | simp_all [containsSym]

theorem containsSym_sFn {s : String} (f : Fn) {a : SymExpr}
    (ha : containsSym s a = false) :
    containsSym s (sFn f a) = false := by
  unfold sFn
  cases f <;> cases numVal? a <;> simp only [] <;>
    first
      | (split_ifs <;> simp_all [containsSym])
      | simp_all [containsSym]

/-- Substituting a number for a symbol removes every occurrence of it:
the result of `subs` never mentions the substituted symbol. -/
theorem containsSym_subsSym (v : String) (c : ℚ) (e : SymExpr) :
    containsSym v (subsSym v c e) = false := by
  induction e with
  | num q => simp [subsSym, containsSym]
  | sym t =>
      by_cases h : t == v
      · simp [subsSym, h, containsSym]
      · simp only [subsSym, h, if_neg]
        simpa [containsSym] using h
  | add a b iha ihb => exact containsSym_sAdd iha ihb
  | mul a b iha ihb => exact containsSym_sMul iha ihb
  | pow a b iha ihb => exact containsSym_sPow iha ihb
  | fn f a iha => exact containsSym_sFn f iha
  | ufn n a iha => simpa [subsSym, containsSym] using iha
  | uder n k a iha => simpa [subsSym, containsSym] using iha

/-- Differentiation introduces no symbol: if `e` does not mention `s`,
neither does `diff v e`, whatever the differentiation variable. -/
theorem containsSym_diff (s v : String) (e : SymExpr)
    (h : containsSym s e = false) :
    containsSym s (diff v e) = false := by
  induction e with
  | num q => simp [diff, containsSym]
  | sym t =>
      unfold diff
      split_ifs <;> simp [containsSym]
  | add a b iha ihb =>
      simp only [containsSym, Bool.or_eq_false_iff] at h
      exact containsSym_sAdd (iha h.1) (ihb h.2)
  | mul a b iha ihb =>
      simp only [containsSym, Bool.or_eq_false_iff] at h
      exact containsSym_sAdd
        (containsSym_sMul (iha h.1) h.2)
        (containsSym_sMul h.1 (ihb h.2))
  | pow a b iha ihb =>
      simp only [containsSym, Bool.or_eq_false_iff] at h
      unfold diff
      cases numVal? b with
      | some n =>
          exact containsSym_sMul
            (containsSym_sMul (by simp [containsSym])
              (containsSym_sPow h.1 (by simp [containsSym])))
            (iha h.1)
      | none =>
          exact containsSym_sMul (containsSym_sPow h.1 h.2)
            (containsSym_sAdd
              (containsSym_sMul (ihb h.2) (containsSym_sFn .log h.1))
              (containsSym_sMul h.2
                (containsSym_sMul (iha h.1)
                  (containsSym_sPow h.1 (by simp [containsSym])))))
  | fn f a iha =>
      simp only [containsSym] at h
      have hd : containsSym s (dFn f a) = false := by
        cases f <;>
          simp [dFn, containsSym_sFn, containsSym_sAdd, containsSym_sMul,
            containsSym_sPow, h, containsSym,
            containsSym_sPow (a := sFn .tan a) (b := .num 2)
              (containsSym_sFn .tan h) (by simp [containsSym])]
      exact containsSym_sMul hd (iha h)
  | ufn n a iha =>
      simp only [containsSym] at h
      exact containsSym_sMul (by simpa [containsSym] using h) (iha h)
  | uder n k a iha =>
      simp only [containsSym] at h
      exact containsSym_sMul (by simpa [containsSym] using h) (iha h)

/-! ## Properties of `nanmin`, `nanmax` and the classification -/

theorem ge0_fmin_rat (p q : ℚ) :
    ge0 (fmin (.fin p) (.fin q)) = (ge0 (.fin p) && ge0 (.fin q)) := by
  simp only [fmin, fle, ge0]
  by_cases hpq : p ≤ q
  · by_cases h0 : 0 ≤ p
    · simp [hpq, h0, le_trans h0 hpq]
    · simp [hpq, h0]
  · have h : q ≤ p := le_of_not_le hpq
    by_cases h0 : 0 ≤ q
    · simp [hpq, h0, le_trans h0 h]
    · simp [hpq, h0]

theorem ge0_fmin (a b : FVal) : ge0 (fmin a b) = (ge0 a && ge0 b) := by
  cases a <;> cases b <;>
    first
    | exact ge0_fmin_rat _ _
    | simp [fmin, fle, ge0]

theorem plain_fmax {a b : FVal} (ha : plainVal a = true) (hb : plainVal b = true) :
    plainVal (fmax a b) = true := by
  unfold fmax
  split <;> assumption

theorem le0_fmax_rat (p q : ℚ) :
    le0 (fmax (.fin p) (.fin q)) = (le0 (.fin p) && le0 (.fin q)) := by
  simp only [fmax, fle, le0]
  by_cases hpq : p ≤ q
  · by_cases h0 : q ≤ 0
    · simp [hpq, h0, le_trans hpq h0]
    · simp [hpq, h0]
  · have h : q ≤ p := le_of_not_le hpq
    by_cases h0 : p ≤ 0
    · simp [hpq, h0, le_trans h h0]
    · simp [hpq, h0]

theorem le0_fmax {a b : FVal} (ha : plainVal a = true) (hb : plainVal b = true) :
    le0 (fmax a b) = (le0 a && le0 b) := by
  cases a with
  | nan => simp [plainVal] at ha
  | unspec => simp [plainVal] at ha
  | fin p =>
      cases b with
      | nan => simp [plainVal] at hb
      | unspec => simp [plainVal] at hb
      | fin q => exact le0_fmax_rat p q
      | pinf => simp [fmax, fle, le0]
      | ninf => simp [fmax, fle, le0]
  | pinf =>
      cases b with
      | nan => simp [plainVal] at hb
      | unspec => simp [plainVal] at hb
      | fin q => simp [fmax, fle, le0]
      | pinf => simp [fmax, fle, le0]
      | ninf => simp [fmax, fle, le0]
  | ninf =>
      cases b with
      | nan => simp [plainVal] at hb
      | unspec => simp [plainVal] at hb
      | fin q => simp [fmax, fle, le0]
      | pinf => simp [fmax, fle, le0]
      | ninf => simp [fmax, fle, le0]

theorem ge0_foldl_fmin (l : List FVal) :
    ∀ a : FVal, ge0 (l.foldl fmin a) = (ge0 a && l.all ge0) := by
  induction l with
  | nil => intro a; simp
  | cons h t ih =>
      intro a
      simp only [List.foldl_cons, List.all_cons, ih, ge0_fmin, Bool.and_assoc]

theorem le0_foldl_fmax (l : List FVal) :
    ∀ a : FVal, plainVal a = true → l.all plainVal = true →
      le0 (l.foldl fmax a) = (le0 a && l.all le0) := by
  induction l with
  | nil => intro a _ _; simp
  | cons h t ih =>
      intro a ha hl
      simp only [List.all_cons, Bool.and_eq_true] at hl
      simp only [List.foldl_cons, List.all_cons,
        ih (fmax a h) (plain_fmax ha hl.1) hl.2, le0_fmax ha hl.1,
        Bool.and_assoc]

theorem ge0_nanmin (l : List FVal) :
    ge0 (nanmin l) = (!(nonNan l).isEmpty && (nonNan l).all ge0) := by
  unfold nanmin
  cases h : nonNan l with
  | nil => simp [ge0]
  | cons a t => simp [ge0_foldl_fmin, List.all_cons]

theorem le0_nanmax (l : List FVal) (hu : noUnspec l = true) :
    le0 (nanmax l) = (!(nonNan l).isEmpty && (nonNan l).all le0) := by
  have hplain : (nonNan l).all plainVal = true := by
    rw [List.all_eq_true]
    intro v hv
    rw [nonNan, List.mem_filter] at hv
    have hvU : isUnspec v = false := by
      rw [noUnspec, List.all_eq_true] at hu
      simpa using hu v hv.1
    have hvN : isNan v = false := by simpa using hv.2
    cases v <;> simp_all [plainVal, isNan, isUnspec]
  unfold nanmax
  cases h : nonNan l with
  | nil => simp [le0]
  | cons a t =>
      rw [h, List.all_cons, Bool.and_eq_true] at hplain
      simp [le0_foldl_fmax t a hplain.1 hplain.2, List.all_cons]

/-! ## Properties of the grid -/

/-- No sample of `np.linspace(-5, 5, 60)` is zero: `-5 + 10*k/59 = 0`
would need `10*k = 295`, impossible for a natural `k`. -/
theorem valAt_ne_zero (k : ℕ) : valAt k ≠ 0 := by
  unfold valAt
  intro h
  have h2 : (10 * k : ℚ) = 295 := by
    field_simp at h
    linarith
  have h3 : (10 * k : ℕ) = 295 := by exact_mod_cast h2
  omega

/-- The grid has 60 rows. -/
theorem mkGrid_length (e : SymExpr) : (mkGrid e).length = 60 := by
  simp [mkGrid]

/-- Every row of the grid has 60 entries. -/
theorem mkGrid_row_length (e : SymExpr) :
    ∀ r ∈ mkGrid e, r.length = 60 := by
  intro r hr
  rw [mkGrid, List.mem_map] at hr
  obtain ⟨i, _, rfl⟩ := hr
  simp

/-- At any grid point with nonzero `x`-coordinate, `1/x` evaluates to a
finite rational. -/
theorem evalNum_oneOverX (xv yv : ℚ) (hx : xv ≠ 0) :
    evalNum xv yv oneOverX = .fin (qzpow xv (-1)) := by
  have hden : ((-1 : ℚ)).den = 1 := rfl
  have hnum : ((-1 : ℚ)).num = -1 := rfl
  simp [evalNum, oneOverX, fpow, hden, hnum, hx]

/-- Every entry of the height field of `1/x` is a finite rational:
zero is not among the 60 samples, so no division by zero occurs. -/
theorem mkGrid_oneOverX_allFin :
    (mkGrid oneOverX).all (fun r => r.all isFinite) = true := by
  rw [List.all_eq_true]
  intro r hr
  rw [mkGrid, List.mem_map] at hr
  obtain ⟨i, _, rfl⟩ := hr
  rw [List.all_eq_true]
  intro v hv
  rw [List.mem_map] at hv
  obtain ⟨j, _, rfl⟩ := hv
  rw [evalNum_oneOverX (valAt j) (valAt i) (valAt_ne_zero j)]
  rfl

/-- The height field of `1/x` contains no Inf and no NaN anywhere. -/
theorem hasNonFin_oneOverX : hasNonFin (mkGrid oneOverX) = false := by
  have h := mkGrid_oneOverX_allFin
  rw [List.all_eq_true] at h
  rw [hasNonFin, ← Bool.not_eq_true, List.any_eq_true]
  rintro ⟨r, hr, hany⟩
  rw [List.any_eq_true] at hany
  obtain ⟨v, hv, hnf⟩ := hany
  have := h r hr
  rw [List.all_eq_true] at this
  have := this v hv
  simp_all

/-! ## The claims -/

/-- C1, counterexample: the input `foo(x)` does NOT raise a ParseError —
`sympify` parses it successfully, as an application of the undefined
function `foo` to the symbol `x`. -/
theorem C1_counterexample :
    parse "foo(x)" = .ok (.ufn "foo" (.sym "x")) := by
  decide

/-- C1 (amended): the Parser raises a ParseError for malformed syntax
(an unclosed call, juxtaposition without an operator), and strings over
the allowed vocabulary with valid syntax parse to the expected
expressions; but a syntactically valid string referencing an identifier
outside the allowed vocabulary, such as `foo(x)`, parses successfully
(to an undefined-function application), and the pipeline halts only at
the numeric-conversion stage, with the EvaluationError explanation and
no chart. -/
theorem C1_amended :
    parse "sin(x" = .error "expected a closing parenthesis" ∧
    parse "sin x" = .error "unexpected trailing input" ∧
    parse "sin(x) + cos(y)" =
      .ok (.add (.fn .sin (.sym "x")) (.fn .cos (.sym "y"))) ∧
    parse "x**2 + y**2 + z**2" =
      .ok (.add (.add (.pow (.sym "x") (.num 2)) (.pow (.sym "y") (.num 2)))
        (.pow (.sym "z") (.num 2))) ∧
    parse "foo(x)" = .ok (.ufn "foo" (.sym "x")) ∧
    run ⟨.two, "foo(x)", .meaning, 0⟩ = [.errBox evalErrMsg, .halt] := by
  refine ⟨by decide, by decide, by decide, by decide, by decide, by decide⟩

/-- C2, counterexample: the HeightField of `1/x` contains NO Inf and NO
NaN entry at all — there is no `x = 0` column, since `0` is not among
the 60 samples of `np.linspace(-5, 5, 60)`. -/
theorem C2_counterexample :
    parse "1/x" = .ok oneOverX ∧ hasNonFin (mkGrid oneOverX) = false :=
  ⟨by decide, hasNonFin_oneOverX⟩

/-- C2 (amended): `1/x` parses to `Pow(x, -1)` and evaluates to a full
60 by 60 HeightField; by exact arithmetic, the value 0 does not occur
among the 60 equally spaced samples `-5 + 10*k/59`, so every entry of
the field is a finite rational — there is no `x = 0` column and no Inf
or NaN anywhere. -/
theorem C2_amended :
    parse "1/x" = .ok oneOverX ∧
    lambdifyEval oneOverX = .ok (.grid (mkGrid oneOverX)) ∧
    (mkGrid oneOverX).all (fun r => r.all isFinite) = true ∧
    (List.range 60).all (fun k => !(valAt k == 0)) = true := by
  refine ⟨by decide, by rfl, mkGrid_oneOverX_allFin, ?_⟩
  rw [List.all_eq_true]
  intro k _
  have := valAt_ne_zero k
  simp [this]

/-- C3, counterexample: the constant input `5` is accepted by the
Numeric Evaluator, but the produced `Z` is a plain scalar — lambdify of
a constant returns a scalar, not a 2D array matching the grid's
shape. -/
theorem C3_counterexample :
    parse "5" = .ok (.num 5) ∧
    lambdifyEval (.num 5) = .ok (.scalar (.fin 5)) ∧
    isGridShaped (.scalar (.fin 5)) = false := by
  refine ⟨by decide, by decide, by decide⟩

/-- C3 (amended): for every accepted Expression the produced `Z` is a
2D array matching the 60 by 60 EvaluationGrid exactly when the
expression mentions `x` or `y`; an expression with no free `x`/`y`,
such as a constant, instead produces a plain scalar. -/
theorem C3_amended (e : SymExpr) (hf : HeightField)
    (h : lambdifyEval e = .ok hf) :
    (containsXY e = true → hf = .grid (mkGrid e) ∧ (mkGrid e).length = 60 ∧
      ∀ r ∈ mkGrid e, r.length = 60) ∧
    (containsXY e = false → hf = .scalar (evalNum 0 0 e)) := by
  rw [lambdifyEval] at h
  by_cases hu : hasUnknown e = true
  · rw [if_pos hu] at h
    cases h
  · rw [if_neg hu] at h
    by_cases hxy : containsXY e = true
    · rw [if_pos hxy] at h
      injection h with h
      constructor
      · intro _
        exact ⟨h.symm, mkGrid_length e, mkGrid_row_length e⟩
      · intro hxy'
        rw [hxy'] at hxy
        cases hxy
    · rw [if_neg hxy] at h
      injection h with h
      constructor
      · intro hxy'
        exact absurd hxy' hxy
      · intro _
        exact h.symm

/-- C3, witness: the amended theorem applied to the constant `5`. -/
theorem C3_witness :
    lambdifyEval (.num 5) = .ok (.scalar (.fin 5)) ∧
    ((containsXY (.num 5) = true →
        HeightField.scalar (.fin 5) = .grid (mkGrid (.num 5)) ∧
        (mkGrid (.num 5)).length = 60 ∧
        ∀ r ∈ mkGrid (SymExpr.num 5), r.length = 60) ∧
     (containsXY (.num 5) = false →
        HeightField.scalar (.fin 5) = .scalar (evalNum 0 0 (.num 5)))) :=
  ⟨by decide, C3_amended (.num 5) (.scalar (.fin 5)) (by decide)⟩

/-- C4, counterexample: in the field `[[-inf, 1]]` every finite value is
nonnegative, so with non-finite values excluded from the comparison the
claim classifies it as the minimum statement; but `np.nanmin` excludes
only NaN, `-inf` participates, and the code returns the saddle
statement. -/
theorem C4_counterexample :
    surface_explanation (.grid [[.ninf, .fin 1]]) = saddleMsg ∧
    ((fieldVals (.grid [[.ninf, .fin 1]])).filter isFinite).all ge0 = true ∧
    saddleMsg ≠ minMsg := by
  refine ⟨by decide, by decide, by decide⟩

/-- C4 (amended): the heuristic returns exactly one of the three
statements, with only NaN values excluded from the min/max comparison —
infinite values participate.  Writing `N` for the non-NaN entries of
the field: if `N` is nonempty and all of `N` is `>= 0` (`+inf` counts
as nonnegative), the minimum statement; if some entry of `N` is
negative and all of `N` is `<= 0` (`-inf` counts as negative), the
maximum statement; if `N` has an entry `< 0` and an entry `> 0`, the
saddle statement. -/
theorem C4_amended (Z : HeightField)
    (hu : noUnspec (fieldVals Z) = true) :
    ((nonNan (fieldVals Z) ≠ [] ∧ (nonNan (fieldVals Z)).all ge0 = true) →
      surface_explanation Z = minMsg) ∧
    (((nonNan (fieldVals Z)).any (fun v => !ge0 v) = true ∧
      (nonNan (fieldVals Z)).all le0 = true) →
      surface_explanation Z = maxMsg) ∧
    (((nonNan (fieldVals Z)).any (fun v => !ge0 v) = true ∧
      (nonNan (fieldVals Z)).any (fun v => !le0 v) = true) →
      surface_explanation Z = saddleMsg) := by
  refine ⟨?_, ?_, ?_⟩
  · rintro ⟨hne, hall⟩
    have hemp : (nonNan (fieldVals Z)).isEmpty = false := by
      cases hnn : nonNan (fieldVals Z) with
      | nil => exact absurd hnn hne
      | cons a t => rfl
    unfold surface_explanation
    rw [ge0_nanmin, hemp, hall]
    simp
  · rintro ⟨hany, hall⟩
    obtain ⟨v, hv, hvneg⟩ := List.any_eq_true.mp hany
    have hemp : (nonNan (fieldVals Z)).isEmpty = false := by
      cases hnn : nonNan (fieldVals Z) with
      | nil => rw [hnn] at hv; cases hv
      | cons a t => rfl
    have hge : (nonNan (fieldVals Z)).all ge0 = false := by
      rw [← Bool.not_eq_true, List.all_eq_true]
      intro hforall
      have := hforall v hv
      simp_all
    unfold surface_explanation
    rw [ge0_nanmin, le0_nanmax _ hu, hemp, hge, hall]
    simp
  · rintro ⟨hany, hany'⟩
    obtain ⟨v, hv, hvneg⟩ := List.any_eq_true.mp hany
    obtain ⟨w, hw, hwpos⟩ := List.any_eq_true.mp hany'
    have hge : (nonNan (fieldVals Z)).all ge0 = false := by
      rw [← Bool.not_eq_true, List.all_eq_true]
      intro hforall
      have := hforall v hv
      simp_all
    have hle : (nonNan (fieldVals Z)).all le0 = false := by
      rw [← Bool.not_eq_true, List.all_eq_true]
      intro hforall
      have := hforall w hw
      simp_all
    unfold surface_explanation
    rw [ge0_nanmin, le0_nanmax _ hu, hge, hle]
    simp

/-- C4, witness: the amended classification applied to the field
`[[1]]`, which the heuristic classifies as the minimum statement. -/
theorem C4_witness :
    noUnspec (fieldVals (.grid [[.fin 1]])) = true ∧
    (nonNan (fieldVals (.grid [[.fin 1]])) ≠ [] ∧
      (nonNan (fieldVals (.grid [[.fin 1]]))).all ge0 = true) ∧
    surface_explanation (.grid [[.fin 1]]) = minMsg :=
  ⟨by decide, ⟨by decide, by decide⟩,
    (C4_amended (.grid [[.fin 1]]) (by decide)).1 ⟨by decide, by decide⟩⟩

/-- C5: the Slicer is the identity in 2-variable mode; in 3-variable
mode it is exactly sympy substitution of the slice value for `z`
everywhere in the tree (a total function by construction — substituting
a constant cannot fail), a `z` leaf becomes the value, and the result
never mentions `z` again. -/
theorem C5_slicer :
    (∀ (z0 : ℚ) (f : SymExpr), f_eval .two z0 f = f) ∧
    (∀ (z0 : ℚ) (f : SymExpr), f_eval .three z0 f = subsSym "z" z0 f) ∧
    (∀ z0 : ℚ, subsSym "z" z0 (.sym "z") = .num z0) ∧
    (∀ (z0 : ℚ) (f : SymExpr), containsSym "z" (subsSym "z" z0 f) = false) :=
  ⟨fun _ _ => rfl, fun _ _ => rfl, fun _ => rfl,
    fun z0 f => containsSym_subsSym "z" z0 f⟩

/-- C5, witness: the slicer theorem applied to the expression
`x**2 + y**2 + z**2` with slice value 1, where the substitution yields
`x**2 + y**2 + 1` (sympy places the number first). -/
theorem C5_witness :
    f_eval .three 1
        (.add (.add (.pow (.sym "x") (.num 2)) (.pow (.sym "y") (.num 2)))
          (.pow (.sym "z") (.num 2))) =
      subsSym "z" 1
        (.add (.add (.pow (.sym "x") (.num 2)) (.pow (.sym "y") (.num 2)))
          (.pow (.sym "z") (.num 2))) ∧
    subsSym "z" 1
        (.add (.add (.pow (.sym "x") (.num 2)) (.pow (.sym "y") (.num 2)))
          (.pow (.sym "z") (.num 2))) =
      .add (.num 1)
        (.add (.pow (.sym "x") (.num 2)) (.pow (.sym "y") (.num 2))) ∧
    containsSym "z"
        (subsSym "z" 1
          (.add (.add (.pow (.sym "x") (.num 2)) (.pow (.sym "y") (.num 2)))
            (.pow (.sym "z") (.num 2)))) = false :=
  ⟨C5_slicer.2.1 1 _, by decide, C5_slicer.2.2.2 1 _⟩

/-- C6: whenever a run's trace contains an error box (ParseError or
EvaluationError), it contains no chart and no topic output, and it ends
with the halt of `st.stop()` — both error kinds are terminal for the
interaction. -/
theorem C6_terminal (inp : Inputs) (h : (run inp).any isErrEff = true) :
    (run inp).any isChartEff = false ∧ (run inp).any isTopicEff = false ∧
    (run inp).getLast? = some .halt := by
  obtain ⟨m, s, t, z0⟩ := inp
  revert h
  simp only [run]
  split
  · intro _
    simp [isErrEff, isChartEff, isTopicEff]
  · split
    · intro _
      simp [isErrEff, isChartEff, isTopicEff]
    · split <;> (intro h; simp [isErrEff] at h)

/-- C6, witness: the terminality theorem applied to the malformed input
`sin(`, whose run raises the parse error. -/
theorem C6_witness :
    (run ⟨.two, "sin(", .meaning, 0⟩).any isErrEff = true ∧
    ((run ⟨.two, "sin(", .meaning, 0⟩).any isChartEff = false ∧
     (run ⟨.two, "sin(", .meaning, 0⟩).any isTopicEff = false ∧
     (run ⟨.two, "sin(", .meaning, 0⟩).getLast? = some .halt) :=
  ⟨by decide, C6_terminal _ (by decide)⟩

/-- C7: the Differentiator returns the standard symbolic first partial
derivatives: for `x**2 + y**2` it yields `fx = 2*x` and `fy = 2*y`, and
for `sin(x) + cos(y)` it yields `cos(x)` and `-sin(y)` (sympy's
`Mul(-1, sin(y))`). -/
theorem C7_derivatives :
    parse "x**2 + y**2" =
      .ok (.add (.pow (.sym "x") (.num 2)) (.pow (.sym "y") (.num 2))) ∧
    diff "x" (.add (.pow (.sym "x") (.num 2)) (.pow (.sym "y") (.num 2))) =
      .mul (.num 2) (.sym "x") ∧
    diff "y" (.add (.pow (.sym "x") (.num 2)) (.pow (.sym "y") (.num 2))) =
      .mul (.num 2) (.sym "y") ∧
    parse "sin(x) + cos(y)" =
      .ok (.add (.fn .sin (.sym "x")) (.fn .cos (.sym "y"))) ∧
    diff "x" (.add (.fn .sin (.sym "x")) (.fn .cos (.sym "y"))) =
      .fn .cos (.sym "x") ∧
    diff "y" (.add (.fn .sin (.sym "x")) (.fn .cos (.sym "y"))) =
      .mul (.num (-1)) (.fn .sin (.sym "y")) := by
  refine ⟨by decide, by decide, by decide, by decide, by decide, by decide⟩

/-- C8: the Numeric Evaluator is deterministic — it is a pure function
of the expression, so two evaluations of the same Expression over the
same fixed grid produce identical HeightFields. -/
theorem C8_deterministic (e : SymExpr) (h1 h2 : HeightField)
    (e1 : lambdifyEval e = .ok h1) (e2 : lambdifyEval e = .ok h2) :
    h1 = h2 := by
  rw [e1] at e2
  exact (Except.ok.inj e2)

/-- C8, witness: determinism applied to the constant `3`. -/
theorem C8_witness :
    lambdifyEval (.num 3) = .ok (.scalar (.fin 3)) ∧
    (HeightField.scalar (.fin 3) : HeightField) = .scalar (.fin 3) :=
  ⟨by decide, C8_deterministic (.num 3) _ _ (by decide) (by decide)⟩

/-- C10: in 3-variable mode the partial derivatives are taken of the
sliced expression, with `z` already replaced by the slice value: they
never mention `z` (for any input expression and any slice value), and
they change when the slice value changes — for `x*z`, the displayed
`fx` is `1` at slice value 1 and `2` at slice value 2. -/
theorem C10_sliced_derivatives :
    (∀ (z0 : ℚ) (f : SymExpr),
      containsSym "z" (diff "x" (f_eval .three z0 f)) = false ∧
      containsSym "z" (diff "y" (f_eval .three z0 f)) = false) ∧
    run ⟨.three, "x*z", .derivs, 1⟩ =
      [.subhead "Partial Derivatives", .texOut (.num 1), .texOut (.num 0),
       .body "Partial derivatives describe how the surface changes.",
       .chartOut] ∧
    run ⟨.three, "x*z", .derivs, 2⟩ =
      [.subhead "Partial Derivatives", .texOut (.num 2), .texOut (.num 0),
       .body "Partial derivatives describe how the surface changes.",
       .chartOut] ∧
    diff "x" (f_eval .three 1 (.mul (.sym "x") (.sym "z"))) ≠
      diff "x" (f_eval .three 2 (.mul (.sym "x") (.sym "z"))) := by
  refine ⟨?_, by decide, by decide, by decide⟩
  intro z0 f
  exact ⟨containsSym_diff "z" "x" _ (containsSym_subsSym "z" z0 f),
    containsSym_diff "z" "y" _ (containsSym_subsSym "z" z0 f)⟩

end Explorer
